import Mathlib

/-!
Shallow embedding of the election/voting core of the Vote-Vault-Chain
repository (src/services/web3Service.ts, class MockBlockchain).

JavaScript `Map`s are modelled as association lists with first-match lookup
and in-place replacement on `set` (JS `Map.set` keeps the position of an
existing key and appends a fresh key at the end).  The `hasVoted` object of
a voter (election id -> true) is modelled as the list of election ids that
map to `true`.  `Date.now()` and `Math.random()` become explicit `now` /
`tx` parameters of each operation.  Methods that `reject` are modelled as
returning `(Except.error e, s)` with the state unchanged, mirroring the
early `return` before any mutation in the source.
-/

namespace VoteVault

/-- The `Candidate` interface of web3Service.ts. -/
structure Candidate where
  id : String
  name : String
  description : String
  voteCount : Nat
  imageUrl : Option String
  deriving DecidableEq

/-- The `Vote` interface of web3Service.ts. -/
structure Vote where
  electionId : String
  candidateId : String
  voterAddress : String
  timestamp : Nat
  txHash : String
  deriving DecidableEq

/-- The `Voter` interface of web3Service.ts; `votedElections` is the list of
election ids whose entry in the `hasVoted` object is `true`. -/
structure Voter where
  address : String
  isRegistered : Bool
  votedElections : List String
  deriving DecidableEq

/-- The `Election` interface of web3Service.ts (the per-caller `hasVoted`
projection is only produced by the read operations, never stored). -/
structure Election where
  id : String
  title : String
  description : String
  startTime : Nat
  endTime : Nat
  isActive : Bool
  candidates : List Candidate
  totalVotes : Nat
  deriving DecidableEq

/-- The private fields of class `MockBlockchain`. -/
structure State where
  elections : List (String × Election)
  votes : List (String × List Vote)
  voters : List (String × Voter)
  currentAccount : Option String
  isAdmin : Bool
  deriving DecidableEq

/-- The distinct rejection reasons of MockBlockchain (one per `reject`
message in the source). -/
inductive Err where
  | notAdmin
  | electionNotFound
  | electionNotActive
  | alreadyVoted
  | candidateNotFound
  | walletNotConnected
  deriving DecidableEq

/-- Transaction status values of `getTransactionStatus`. -/
inductive TxStatus where
  | pending
  | confirmed
  | failed
  deriving DecidableEq

/-- First-match lookup in an association list (JS `Map.get`). -/
def alGet {α : Type} : List (String × α) → String → Option α
  | [], _ => none
  | (k, v) :: rest, k' => if k = k' then some v else alGet rest k'

/-- JS `Map.set`: replace the value of an existing key in place, append a
fresh key at the end. -/
def alSet {α : Type} : List (String × α) → String → α → List (String × α)
  | [], k, v => [(k, v)]
  | (k', v') :: rest, k, v =>
      if k' = k then (k, v) :: rest else (k', v') :: alSet rest k v

/-- Boolean list membership (truth of a key in the `hasVoted` object). -/
def memB (x : String) : List String → Bool
  | [] => false
  | y :: ys => if y = x then true else memB x ys

/-- Lookup of `voters.get(voterAddress)?.hasVoted[electionId] || false` on
a voter table. -/
def voterHasB (voters : List (String × Voter))
    (electionId voterAddress : String) : Bool :=
  match alGet voters voterAddress with
  | some v => memB electionId v.votedElections
  | none => false

/-- Private method `hasVoted(electionId, voterAddress)`:
`this.voters.get(voterAddress)?.hasVoted[electionId] || false`. -/
def hasVotedB (s : State) (electionId voterAddress : String) : Bool :=
  voterHasB s.voters electionId voterAddress

/-- Assignment `voter.hasVoted[electionId] = true` on the voter object. -/
def markVoted (v : Voter) (electionId : String) : Voter :=
  { v with votedElections :=
      if memB electionId v.votedElections then v.votedElections
      else electionId :: v.votedElections }

/-- Lookup `election.candidates.find(c => c.id === candidateId)`. -/
def findCand (cid : String) : List Candidate → Option Candidate
  | [] => none
  | c :: cs => if c.id = cid then some c else findCand cid cs

/-- Increment `candidate.voteCount++` on the (first) candidate found by `find`:
the mutation through the object reference returned by `find` affects
exactly the first list entry with that id. -/
def incFirst : List Candidate → String → List Candidate
  | [], _ => []
  | c :: cs, cid =>
      if c.id = cid then { c with voteCount := c.voteCount + 1 } :: cs
      else c :: incFirst cs cid

/-- Method `connectWallet()`: sets the current account and admin flag and registers
a voter record only if none exists for the address.  The random address and
admin coin-flip are explicit parameters. -/
def connectWallet (s : State) (addr : String) (adm : Bool) : String × State :=
  let s1 : State := { s with currentAccount := some addr, isAdmin := adm }
  match alGet s.voters addr with
  | some _ => (addr, s1)
  | none =>
      (addr, { s1 with voters := alSet s1.voters addr ⟨addr, true, []⟩ })

/-- Method `disconnectWallet()`. -/
def disconnectWallet (s : State) : State :=
  { s with currentAccount := none, isAdmin := false }

/-- Method `createElection(...)`: only checks `isAdmin`; the id is
`"election-" + Date.now()`; `isActive` is computed once, from the call-time
clock, and stored. -/
def createElection (s : State) (title descr : String)
    (startTime endTime now : Nat) : Except Err String × State :=
  if !s.isAdmin then (Except.error Err.notAdmin, s)
  else
    let electionId := "election-" ++ toString now
    let e : Election :=
      { id := electionId, title := title, description := descr,
        startTime := startTime, endTime := endTime,
        isActive := decide (startTime ≤ now) && decide (now ≤ endTime),
        candidates := [], totalVotes := 0 }
    (Except.ok electionId,
      { s with elections := alSet s.elections electionId e,
               votes := alSet s.votes electionId [] })

/-- Method `addCandidate(electionId, candidate)`: checks `isAdmin` and existence of
the election, then pushes the candidate; the id is
`"candidate-" + Date.now()`. -/
def addCandidate (s : State) (electionId name descr : String) (now : Nat) :
    Except Err String × State :=
  if !s.isAdmin then (Except.error Err.notAdmin, s)
  else
    match alGet s.elections electionId with
    | none => (Except.error Err.electionNotFound, s)
    | some e =>
        let candidateId := "candidate-" ++ toString now
        let c : Candidate :=
          { id := candidateId, name := name, description := descr,
            voteCount := 0, imageUrl := none }
        let e' : Election := { e with candidates := e.candidates ++ [c] }
        (Except.ok candidateId,
          { s with elections := alSet s.elections electionId e' })

/-- Method `castVote(electionId, candidateId)`: the five precondition checks in
source order, each rejecting with the state untouched, then the combined
mutation (candidate tally, election total, vote log, voter record). -/
def castVote (s : State) (electionId candidateId : String) (now : Nat)
    (tx : String) : Except Err String × State :=
  match s.currentAccount with
  | none => (Except.error Err.walletNotConnected, s)
  | some addr =>
      match alGet s.elections electionId with
      | none => (Except.error Err.electionNotFound, s)
      | some e =>
          if !e.isActive then (Except.error Err.electionNotActive, s)
          else if hasVotedB s electionId addr then
            (Except.error Err.alreadyVoted, s)
          else
            match findCand candidateId e.candidates with
            | none => (Except.error Err.candidateNotFound, s)
            | some _ =>
                let vote : Vote :=
                  { electionId := electionId, candidateId := candidateId,
                    voterAddress := addr, timestamp := now, txHash := tx }
                let e' : Election :=
                  { e with candidates := incFirst e.candidates candidateId,
                           totalVotes := e.totalVotes + 1 }
                let vs := (alGet s.votes electionId).getD []
                let voters' :=
                  match alGet s.voters addr with
                  | some v => alSet s.voters addr (markVoted v electionId)
                  | none => s.voters
                (Except.ok tx,
                  { s with elections := alSet s.elections electionId e',
                           votes := alSet s.votes electionId (vs ++ [vote]),
                           voters := voters' })

/-- Method `getAllElections()`: read-only; pairs each election with the
caller-relative `hasVoted` projection. -/
def getAllElections (s : State) : List (Election × Bool) :=
  s.elections.map (fun p =>
    (p.2, match s.currentAccount with
          | some a => hasVotedB s p.2.id a
          | none => false))

/-- Method `getElection(electionId)`: read-only. -/
def getElection (s : State) (electionId : String) : Option (Election × Bool) :=
  match alGet s.elections electionId with
  | some e =>
      some (e, match s.currentAccount with
               | some a => hasVotedB s electionId a
               | none => false)
  | none => none

/-- Stable insertion into a list sorted by descending `voteCount`; equal
counts keep the inserted (originally earlier) element in front. -/
def insertDesc (c : Candidate) : List Candidate → List Candidate
  | [] => [c]
  | d :: ds =>
      if d.voteCount ≤ c.voteCount then c :: d :: ds
      else d :: insertDesc c ds

/-- The copy-and-sort `[...election.candidates].sort((a, b) => b.voteCount - a.voteCount)`:
JS `Array.prototype.sort` is stable, and this comparator orders by
descending `voteCount`; the unique stable descending reordering is computed
by stable insertion sort. -/
def sortCandidates : List Candidate → List Candidate
  | [] => []
  | c :: cs => insertDesc c (sortCandidates cs)

/-- Method `getElectionResults(electionId)`: read-only; rejects on unknown
election, otherwise returns a sorted copy of the candidate list. -/
def getElectionResults (s : State) (electionId : String) :
    Except Err (List Candidate) :=
  match alGet s.elections electionId with
  | none => Except.error Err.electionNotFound
  | some e => Except.ok (sortCandidates e.candidates)

/-- Method `getTransactionStatus(txHash)`: picks a random element of
`['confirmed','confirmed','confirmed','pending','failed']` and leaves the
blockchain state untouched; `r` is the random index draw. -/
def getTransactionStatus (s : State) (r : Nat) : TxStatus × State :=
  (match r % 5 with
   | 3 => TxStatus.pending
   | 4 => TxStatus.failed
   | _ => TxStatus.confirmed, s)

/-- The sample election installed by `initializeSampleData`, with `t0` the
construction-time clock (`Date.now()`). -/
def sampleElection (t0 : Nat) : Election :=
  { id := "election-1",
    title := "2024 Student Council Elections",
    description := "Vote for your preferred student council president",
    startTime := t0 - 3600000,
    endTime := t0 + 86400000,
    isActive := true,
    totalVotes := 0,
    candidates :=
      [ { id := "candidate-1", name := "Alice Johnson",
          description := "Experienced leader with vision for positive change",
          voteCount := 0, imageUrl := none },
        { id := "candidate-2", name := "Bob Smith",
          description := "Fresh perspective and innovative ideas",
          voteCount := 0, imageUrl := none },
        { id := "candidate-3", name := "Carol Davis",
          description := "Proven track record in student advocacy",
          voteCount := 0, imageUrl := none } ] }

/-- The constructor state of `MockBlockchain`. -/
def initState (t0 : Nat) : State :=
  { elections := [("election-1", sampleElection t0)],
    votes := [("election-1", [])],
    voters := [],
    currentAccount := none,
    isAdmin := false }

/-- One client-visible operation of the service, with all environment
inputs (clock, randomness) explicit. -/
inductive Op where
  | connect (addr : String) (adm : Bool)
  | disconnect
  | create (title descr : String) (startTime endTime now : Nat)
  | addCand (electionId name descr : String) (now : Nat)
  | vote (electionId candidateId : String) (now : Nat) (tx : String)
  | listAll
  | getOne (electionId : String)
  | results (electionId : String)
  | txStatus (r : Nat)

/-- State transition of one operation (read operations return values from
pure functions of the state and leave it unchanged, as in the source). -/
def applyOp (s : State) : Op → State
  | Op.connect addr adm => (connectWallet s addr adm).2
  | Op.disconnect => disconnectWallet s
  | Op.create t d st et now => (createElection s t d st et now).2
  | Op.addCand eid n d now => (addCandidate s eid n d now).2
  | Op.vote eid cid now tx => (castVote s eid cid now tx).2
  | Op.listAll => s
  | Op.getOne _ => s
  | Op.results _ => s
  | Op.txStatus r => (getTransactionStatus s r).2

/-- The state after running a sequence of operations from the freshly
constructed service. -/
def run (t0 : Nat) (ops : List Op) : State :=
  ops.foldl applyOp (initState t0)

/-- Reference value for `totalVotes`: sum of the candidates' `voteCount`s. -/
def sumVotes : List Candidate → Nat
  | [] => 0
  | c :: cs => c.voteCount + sumVotes cs

/-- Tally invariant: every stored election's `totalVotes` equals the sum
of its candidates' `voteCount`s. -/
def InvTotal (s : State) : Prop :=
  ∀ eid e, alGet s.elections eid = some e →
    e.totalVotes = sumVotes e.candidates

/-- Ledger invariant: every logged vote is filed under its own election id
and its voter's record maps that election to `true`. -/
def VotesWF (s : State) : Prop :=
  ∀ eid vs, alGet s.votes eid = some vs →
    ∀ v ∈ vs, v.electionId = eid ∧
      hasVotedB s v.electionId v.voterAddress = true

/-- Ledger invariant: no election's vote log holds two entries by the same
voter address. -/
def VotesNodup (s : State) : Prop :=
  ∀ eid vs, alGet s.votes eid = some vs →
    List.Pairwise (fun v w : Vote => v.voterAddress ≠ w.voterAddress) vs

/-- A connected account always has a voter record (connectWallet registers
one). -/
def AccountRegistered (s : State) : Prop :=
  ∀ a, s.currentAccount = some a → (alGet s.voters a).isSome = true

/-- Combined ledger invariant for the reachable-state induction. -/
def Inv8 (s : State) : Prop := VotesWF s ∧ VotesNodup s ∧ AccountRegistered s

theorem alGet_alSet {α : Type} (l : List (String × α)) (k k' : String) (v : α) :
    alGet (alSet l k v) k' = if k = k' then some v else alGet l k' := by
  induction l with
  | nil => rfl
  | cons p rest ih =>
      obtain ⟨k0, v0⟩ := p
      by_cases h0 : k0 = k
      · subst h0
        by_cases h1 : k0 = k' <;> simp [alSet, alGet, h1]
      · by_cases h2 : k = k'
        · subst h2
          by_cases h1 : k0 = k
          · exact absurd h1 h0
          · simp [alSet, alGet, h0, h1, ih]
        · have h2' : k' ≠ k := fun hh => h2 hh.symm
          by_cases h1 : k0 = k' <;>
            simp [alSet, alGet, h0, h1, h2, h2', ih]

theorem alGet_alSet_self {α : Type} (l : List (String × α)) (k : String) (v : α) :
    alGet (alSet l k v) k = some v := by
  simp [alGet_alSet]

theorem alGet_alSet_ne {α : Type} (l : List (String × α)) (k k' : String) (v : α)
    (h : k ≠ k') : alGet (alSet l k v) k' = alGet l k' := by
  simp [alGet_alSet, h]

theorem memB_iff (x : String) (l : List String) : memB x l = true ↔ x ∈ l := by
  induction l with
  | nil => simp [memB]
  | cons y ys ih =>
      by_cases h : y = x
      · subst h; simp [memB]
      · simp [memB, h, ih, Ne.symm h]

theorem memB_markVoted_self (v : Voter) (e : String) :
    memB e (markVoted v e).votedElections = true := by
  unfold markVoted
  by_cases h : memB e v.votedElections <;> simp [h, memB]

theorem memB_markVoted_of (v : Voter) (e e' : String)
    (h : memB e' v.votedElections = true) :
    memB e' (markVoted v e).votedElections = true := by
  unfold markVoted
  by_cases h0 : memB e v.votedElections
  · simpa [h0]
  · by_cases h1 : e = e' <;> simp [h0, memB, h1, h]

theorem sumVotes_append (l : List Candidate) (c : Candidate) :
    sumVotes (l ++ [c]) = sumVotes l + c.voteCount := by
  induction l with
  | nil => simp [sumVotes]
  | cons d ds ih => simp [sumVotes, ih]; omega

theorem sumVotes_incFirst (l : List Candidate) (cid : String)
    (h : (findCand cid l).isSome) :
    sumVotes (incFirst l cid) = sumVotes l + 1 := by
  induction l with
  | nil => simp [findCand] at h
  | cons d ds ih =>
      by_cases h0 : d.id = cid
      · simp [incFirst, h0, sumVotes]; omega
      · simp [findCand, h0] at h
        simp [incFirst, h0, sumVotes, ih h]
        omega

theorem connectWallet_elections (s : State) (a : String) (adm : Bool) :
    (connectWallet s a adm).2.elections = s.elections := by
  cases h : alGet s.voters a <;> simp [connectWallet, h]

theorem connectWallet_votes (s : State) (a : String) (adm : Bool) :
    (connectWallet s a adm).2.votes = s.votes := by
  cases h : alGet s.voters a <;> simp [connectWallet, h]

theorem connectWallet_found (s : State) (a : String) (adm : Bool)
    (h : (alGet s.voters a).isSome) :
    (connectWallet s a adm).2 =
      { s with currentAccount := some a, isAdmin := adm } := by
  cases h0 : alGet s.voters a
  · simp [h0] at h
  · simp [connectWallet, h0]

theorem connectWallet_fresh (s : State) (a : String) (adm : Bool)
    (h : alGet s.voters a = none) :
    (connectWallet s a adm).2 =
      { s with currentAccount := some a, isAdmin := adm,
               voters := alSet s.voters a ⟨a, true, []⟩ } := by
  simp [connectWallet, h]

theorem castVote_spec (s : State) (eid cid : String) (now : Nat) (tx : String) :
    (castVote s eid cid now tx).2 = s ∨
    ∃ addr e c, s.currentAccount = some addr ∧
      alGet s.elections eid = some e ∧ e.isActive = true ∧
      hasVotedB s eid addr = false ∧
      findCand cid e.candidates = some c ∧
      (castVote s eid cid now tx).1 = Except.ok tx ∧
      (castVote s eid cid now tx).2 =
        { s with
          elections := alSet s.elections eid
            { e with candidates := incFirst e.candidates cid,
                     totalVotes := e.totalVotes + 1 },
          votes := alSet s.votes eid
            ((alGet s.votes eid).getD [] ++
              [{ electionId := eid, candidateId := cid, voterAddress := addr,
                 timestamp := now, txHash := tx }]),
          voters :=
            match alGet s.voters addr with
            | some v => alSet s.voters addr (markVoted v eid)
            | none => s.voters } := by
  cases hA : s.currentAccount with
  | none => left; simp [castVote, hA]
  | some addr =>
      cases hE : alGet s.elections eid with
      | none => left; simp [castVote, hA, hE]
      | some e =>
          by_cases hAct : e.isActive
          · by_cases hHV : hasVotedB s eid addr
            · left; simp [castVote, hA, hE, hAct, hHV]
            · cases hC : findCand cid e.candidates with
              | none => left; simp [castVote, hA, hE, hAct, hHV, hC]
              | some c =>
                  right
                  refine ⟨addr, e, c, rfl, rfl, by simpa using hAct,
                    by simpa using hHV, hC, ?_, ?_⟩ <;>
                    simp [castVote, hA, hE, hAct, hHV, hC]
          · left
            have : e.isActive = false := by simpa using hAct
            simp [castVote, hA, hE, this]

/-- C1: a participant whose voter record already maps the election to
`true` gets `AlreadyVotedError` from a second `castVote` (given the
election exists and its stored active flag is set, the checks performed
before the already-voted check), and every precondition failure of
`castVote` returns the state unchanged — no partial application. -/
theorem c1_second_vote_rejected_and_failures_preserve_state (s : State)
    (eid cid : String) (now : Nat) (tx : String) :
    (∀ a, s.currentAccount = some a →
      (alGet s.elections eid).map Election.isActive = some true →
      hasVotedB s eid a = true →
      (castVote s eid cid now tx).1 = Except.error Err.alreadyVoted)
    ∧ (∀ err, (castVote s eid cid now tx).1 = Except.error err →
        (castVote s eid cid now tx).2 = s) := by
  constructor
  · intro a hA hAct hHV
    obtain ⟨e, hE, hAct'⟩ := Option.map_eq_some'.mp hAct
    simp [castVote, hA, hE, hAct', hHV]
  · intro err hErr
    rcases castVote_spec s eid cid now tx with h |
      ⟨a, e, c, _, _, _, _, _, hOk, _⟩
    · exact h
    · simp [hOk] at hErr

/-- C1 witness: after voter 0xaa votes for candidate-1 of the sample
election, a second castVote by 0xaa is rejected with the already-voted
error. -/
theorem c1_witness :
    (castVote (run 0 [Op.connect "0xaa" false,
        Op.vote "election-1" "candidate-1" 7 "0xt1"])
      "election-1" "candidate-1" 9 "0xt2").1 =
        Except.error Err.alreadyVoted :=
  (c1_second_vote_rejected_and_failures_preserve_state
      (run 0 [Op.connect "0xaa" false,
        Op.vote "election-1" "candidate-1" 7 "0xt1"])
      "election-1" "candidate-1" 9 "0xt2").1
    "0xaa" (by decide) (by decide) (by decide)

/-- C9: `getTransactionStatus` never mutates the blockchain state: it
returns the state it was given, and appending it to any operation history
leaves every election, tally, vote entry and voter record of the final
state unchanged. -/
theorem c9_transaction_status_never_mutates :
    (∀ s r, (getTransactionStatus s r).2 = s)
    ∧ (∀ t0 ops r, run t0 (ops ++ [Op.txStatus r]) = run t0 ops) := by
  constructor
  · intro s r; rfl
  · intro t0 ops r
    simp [run, List.foldl_append, applyOp, getTransactionStatus]

/-- C10: `connectWallet` on an address that already has a voter record
leaves the voter table — and hence every `hasVoted` entry — unchanged. -/
theorem c10_reconnect_preserves_voter_record (s : State) (addr : String)
    (adm : Bool) (h : (alGet s.voters addr).isSome) :
    (connectWallet s addr adm).2.voters = s.voters
    ∧ ∀ eid a,
        hasVotedB (connectWallet s addr adm).2 eid a = hasVotedB s eid a := by
  have hs := connectWallet_found s addr adm h
  refine ⟨by rw [hs], fun eid a => by rw [hs]; rfl⟩

/-- C10 witness: reconnecting 0xaa after a disconnect leaves the voter
table unchanged. -/
theorem c10_witness :
    (connectWallet (run 0 [Op.connect "0xaa" true, Op.disconnect])
        "0xaa" false).2.voters =
      (run 0 [Op.connect "0xaa" true, Op.disconnect]).voters :=
  (c10_reconnect_preserves_voter_record
      (run 0 [Op.connect "0xaa" true, Op.disconnect]) "0xaa" false
      (by decide)).1

/-- C3 failing input: the stored `isActive` flag is computed once at
creation time and never rechecked, so an election created inside its
window (here at time 5, window [0,10]) still accepts a vote at time 20,
after `endTime` — instead of failing with `InactiveElectionError` as the
claim requires. -/
theorem c3_code_accepts_vote_after_endTime :
    ((alGet (run 3600000 [Op.connect "0xad" true, Op.create "T" "D" 0 10 5,
        Op.addCand "election-5" "A" "x" 6]).elections "election-5").map
          Election.endTime = some 10)
    ∧ (castVote (run 3600000 [Op.connect "0xad" true, Op.create "T" "D" 0 10 5,
        Op.addCand "election-5" "A" "x" 6]) "election-5" "candidate-6" 20
          "0xv").1 = Except.ok "0xv" := by
  exact ⟨rfl, rfl⟩

/-- C4 failing input: `createElection` performs no input validation at
all — an admin call with empty title and description, `startTime = 10 ≥
endTime = 5`, and `endTime` in the past (call time 20) succeeds and
stores the election record, instead of failing with `ValidationError` /
`PastEndTimeError`. -/
theorem c4_code_skips_validation :
    (createElection (run 0 [Op.connect "0xad" true]) "" "" 10 5 20).1
        = Except.ok "election-20"
    ∧ (alGet (createElection (run 0 [Op.connect "0xad" true])
        "" "" 10 5 20).2.elections "election-20").isSome = true := by
  exact ⟨rfl, rfl⟩

/-- C5 failing input: the sample election started at time 0, yet an admin
`addCandidate` at time 100 (≥ startTime) succeeds and appends a fourth
candidate, instead of failing with `ElectionAlreadyStartedError`. -/
theorem c5_code_adds_candidate_after_start :
    (addCandidate (run 3600000 [Op.connect "0xad" true])
        "election-1" "Zed" "z" 100).1 = Except.ok "candidate-100"
    ∧ ((alGet (addCandidate (run 3600000 [Op.connect "0xad" true])
          "election-1" "Zed" "z" 100).2.elections "election-1").map
            (fun e => List.length e.candidates) = some 4)
    ∧ ((alGet (run 3600000 [Op.connect "0xad" true]).elections
          "election-1").map Election.startTime = some 0) := by
  exact ⟨rfl, rfl, rfl⟩

/-- C7 failing input: election ids are `"election-" + Date.now()`, so two
creations completing at the same millisecond (50) are both issued the id
"election-50", and the second creation overwrites the first election's
record (its title becomes "B") — identifiers are reused, violating the
claim. -/
theorem c7_code_reuses_election_id :
    (createElection (run 0 [Op.connect "0xad" true]) "A" "x" 0 100 50).1
        = Except.ok "election-50"
    ∧ (createElection (run 0 [Op.connect "0xad" true,
        Op.create "A" "x" 0 100 50]) "B" "y" 0 100 50).1
          = Except.ok "election-50"
    ∧ ((alGet (createElection (run 0 [Op.connect "0xad" true,
          Op.create "A" "x" 0 100 50]) "B" "y" 0 100 50).2.elections
            "election-50").map Election.title = some "B") := by
  exact ⟨rfl, rfl, rfl⟩

theorem invTotal_applyOp (s : State) (op : Op) (h : InvTotal s) :
    InvTotal (applyOp s op) := by
  cases op with
  | connect addr adm =>
      intro eid e hE
      simp only [applyOp] at hE
      rw [connectWallet_elections] at hE
      exact h eid e hE
  | disconnect => intro eid e hE; exact h eid e hE
  | create t d st et now =>
      intro eid e hE
      simp only [applyOp] at hE
      by_cases hAdm : s.isAdmin
      · simp only [createElection, hAdm, Bool.not_true, Bool.false_eq_true,
          if_false] at hE
        rw [alGet_alSet] at hE
        by_cases hk : "election-" ++ toString now = eid
        · rw [if_pos hk] at hE
          injection hE with h1
          subst h1
          simp [sumVotes]
        · rw [if_neg hk] at hE
          exact h eid e hE
      · simp only [createElection, Bool.not_eq_true', eq_self_iff_true] at hE
        rw [Bool.not_eq_true] at hAdm
        simp only [hAdm, Bool.not_false, if_true] at hE
        exact h eid e hE
  | addCand eid0 n d now =>
      intro eid e hE
      simp only [applyOp] at hE
      by_cases hAdm : s.isAdmin
      · cases hE0 : alGet s.elections eid0 with
        | none => simp only [addCandidate, hAdm, Bool.not_true,
            Bool.false_eq_true, if_false, hE0] at hE; exact h eid e hE
        | some e0 =>
            simp only [addCandidate, hAdm, Bool.not_true, Bool.false_eq_true,
              if_false, hE0] at hE
            rw [alGet_alSet] at hE
            by_cases hk : eid0 = eid
            · rw [if_pos hk] at hE
              injection hE with h1
              subst h1
              have h0 := h eid0 e0 hE0
              simp only [sumVotes_append]
              simpa [sumVotes] using h0
            · rw [if_neg hk] at hE
              exact h eid e hE
      · rw [Bool.not_eq_true] at hAdm
        simp only [addCandidate, hAdm, Bool.not_false, if_true] at hE
        exact h eid e hE
  | vote eid0 cid now tx =>
      intro eid e hE
      simp only [applyOp] at hE
      rcases castVote_spec s eid0 cid now tx with hs |
        ⟨addr, e0, c0, hA, hE0, hAct, hHV, hC, hOk, hSt⟩
      · rw [hs] at hE; exact h eid e hE
      · rw [hSt] at hE
        have hE' : alGet (alSet s.elections eid0
            { e0 with candidates := incFirst e0.candidates cid,
                      totalVotes := e0.totalVotes + 1 }) eid = some e := hE
        rw [alGet_alSet] at hE'
        by_cases hk : eid0 = eid
        · rw [if_pos hk] at hE'
          injection hE' with h1
          subst h1
          have h0 := h eid0 e0 hE0
          simp only [sumVotes_incFirst e0.candidates cid (by simp [hC])]
          omega
        · rw [if_neg hk] at hE'
          exact h eid e hE'
  | listAll => intro eid e hE; exact h eid e hE
  | getOne eid0 => intro eid e hE; exact h eid e hE
  | results eid0 => intro eid e hE; exact h eid e hE
  | txStatus r => intro eid e hE; exact h eid e hE

theorem invTotal_foldl (ops : List Op) :
    ∀ s, InvTotal s → InvTotal (ops.foldl applyOp s) := by
  induction ops with
  | nil => intro s h; exact h
  | cons op rest ih => intro s h; exact ih _ (invTotal_applyOp s op h)

theorem invTotal_init (t0 : Nat) : InvTotal (initState t0) := by
  intro eid e hE
  simp only [initState] at hE
  by_cases hk : "election-1" = eid
  · simp only [alGet, hk, if_true] at hE
    injection hE with h1
    subst h1
    simp [sampleElection, sumVotes]
  · simp only [alGet, hk, if_false] at hE
    exact Option.noConfusion hE

/-- C2: after every operation sequence (creation, candidate addition,
voting and the read operations), every stored election's `totalVotes`
equals the sum of its candidates' `voteCount`s. -/
theorem c2_totalVotes_is_sum_of_candidates (t0 : Nat) (ops : List Op)
    (eid : String) (e : Election)
    (h : alGet (run t0 ops).elections eid = some e) :
    e.totalVotes = sumVotes e.candidates :=
  invTotal_foldl ops (initState t0) (invTotal_init t0) eid e h

/-- C2 witness: the invariant instantiated on the freshly constructed
service and its sample election. -/
theorem c2_witness :
    (sampleElection 0).totalVotes = sumVotes (sampleElection 0).candidates :=
  c2_totalVotes_is_sum_of_candidates 0 [] "election-1" (sampleElection 0)
    (by decide)

theorem insertDesc_perm (c : Candidate) (l : List Candidate) :
    List.Perm (insertDesc c l) (c :: l) := by
  induction l with
  | nil => exact List.Perm.refl _
  | cons d ds ih =>
      by_cases h : d.voteCount ≤ c.voteCount
      · simp only [insertDesc, if_pos h]
        exact List.Perm.refl _
      · simp only [insertDesc, if_neg h]
        exact (ih.cons d).trans (List.Perm.swap c d ds)

theorem sortCandidates_perm (l : List Candidate) :
    List.Perm (sortCandidates l) l := by
  induction l with
  | nil => exact List.Perm.refl _
  | cons c cs ih =>
      exact (insertDesc_perm c (sortCandidates cs)).trans (ih.cons c)

theorem sorted_insertDesc (c : Candidate) (l : List Candidate)
    (h : List.Sorted (fun a b : Candidate => b.voteCount ≤ a.voteCount) l) :
    List.Sorted (fun a b : Candidate => b.voteCount ≤ a.voteCount)
      (insertDesc c l) := by
  induction l with
  | nil => simp [insertDesc]
  | cons d ds ih =>
      rw [List.sorted_cons] at h
      by_cases h0 : d.voteCount ≤ c.voteCount
      · simp only [insertDesc, if_pos h0]
        rw [List.sorted_cons]
        refine ⟨?_, ?_⟩
        · intro b hb
          rcases List.mem_cons.mp hb with rfl | hb'
          · exact h0
          · exact (h.1 b hb').trans h0
        · rw [List.sorted_cons]
          exact ⟨h.1, h.2⟩
      · simp only [insertDesc, if_neg h0]
        rw [List.sorted_cons]
        refine ⟨?_, ih h.2⟩
        intro b hb
        have hb2 := (insertDesc_perm c ds).mem_iff.mp hb
        rcases List.mem_cons.mp hb2 with rfl | hm
        · exact le_of_not_le h0
        · exact h.1 b hm

theorem sorted_sortCandidates (l : List Candidate) :
    List.Sorted (fun a b : Candidate => b.voteCount ≤ a.voteCount)
      (sortCandidates l) := by
  induction l with
  | nil => simp [sortCandidates]
  | cons c cs ih => exact sorted_insertDesc c (sortCandidates cs) ih

theorem filter_insertDesc (v : Nat) (c : Candidate) (l : List Candidate) :
    (insertDesc c l).filter (fun d => decide (d.voteCount = v)) =
      (c :: l).filter (fun d => decide (d.voteCount = v)) := by
  induction l with
  | nil => rfl
  | cons d ds ih =>
      by_cases h0 : d.voteCount ≤ c.voteCount
      · simp only [insertDesc, if_pos h0]
      · simp only [insertDesc, if_neg h0]
        by_cases hc : c.voteCount = v
        · have hd : ¬d.voteCount = v := by
            have := Nat.lt_of_not_le h0
            omega
          simp [List.filter_cons, hc, hd, ih]
        · by_cases hd : d.voteCount = v <;>
            simp [List.filter_cons, hc, hd, ih]

theorem filter_sortCandidates (v : Nat) (l : List Candidate) :
    (sortCandidates l).filter (fun d => decide (d.voteCount = v)) =
      l.filter (fun d => decide (d.voteCount = v)) := by
  induction l with
  | nil => rfl
  | cons c cs ih =>
      rw [sortCandidates, filter_insertDesc]
      by_cases hc : c.voteCount = v <;> simp [List.filter_cons, hc, ih]

theorem sortCandidates_eq_of_const (l : List Candidate) (v : Nat)
    (h : ∀ c ∈ l, c.voteCount = v) : sortCandidates l = l := by
  have h1 : l.filter (fun d => decide (d.voteCount = v)) = l := by
    rw [List.filter_eq_self]
    intro a ha
    simpa using h a ha
  have h2 : (sortCandidates l).filter (fun d => decide (d.voteCount = v)) =
      sortCandidates l := by
    rw [List.filter_eq_self]
    intro a ha
    have := (sortCandidates_perm l).mem_iff.mp ha
    simpa using h a this
  rw [← h2, filter_sortCandidates, h1]

/-- C6: on an existing election, getElectionResults returns exactly the
election's candidates reordered by descending voteCount; candidates of
equal voteCount keep their original ballot order (the filter at each
count value is unchanged), and with all counts equal (e.g. zero votes)
the original order is returned unchanged. -/
theorem c6_results_sorted_stable_deterministic (s : State) (eid : String)
    (e : Election) (h : alGet s.elections eid = some e) :
    getElectionResults s eid = Except.ok (sortCandidates e.candidates)
    ∧ List.Perm (sortCandidates e.candidates) e.candidates
    ∧ List.Sorted (fun a b : Candidate => b.voteCount ≤ a.voteCount)
        (sortCandidates e.candidates)
    ∧ (∀ v, (sortCandidates e.candidates).filter
          (fun d => decide (d.voteCount = v)) =
        e.candidates.filter (fun d => decide (d.voteCount = v)))
    ∧ ((∀ c ∈ e.candidates, c.voteCount = 0) →
        sortCandidates e.candidates = e.candidates) := by
  refine ⟨by simp [getElectionResults, h], sortCandidates_perm _,
    sorted_sortCandidates _, fun v => filter_sortCandidates v _,
    fun hz => sortCandidates_eq_of_const _ 0 hz⟩

/-- C6 witness: the zero-vote sample election's results come back in
ballot order. -/
theorem c6_witness :
    getElectionResults (initState 0) "election-1" =
      Except.ok (sortCandidates (sampleElection 0).candidates) :=
  (c6_results_sorted_stable_deterministic (initState 0) "election-1"
    (sampleElection 0) (by decide)).1

theorem voterHasB_mark_mono (voters : List (String × Voter))
    (addr eid : String) (v : Voter) (hv : alGet voters addr = some v)
    (e' a : String) (h : voterHasB voters e' a = true) :
    voterHasB (alSet voters addr (markVoted v eid)) e' a = true := by
  unfold voterHasB at h ⊢
  by_cases hx : addr = a
  · subst hx
    rw [alGet_alSet_self]
    rw [hv] at h
    exact memB_markVoted_of v eid e' h
  · rw [alGet_alSet_ne _ _ _ _ hx]
    exact h

theorem voterHasB_mark_self (voters : List (String × Voter))
    (addr eid : String) (v : Voter) :
    voterHasB (alSet voters addr (markVoted v eid)) eid addr = true := by
  unfold voterHasB
  rw [alGet_alSet_self]
  exact memB_markVoted_self v eid

theorem voterHasB_connect_mono (s : State) (a : String) (adm : Bool)
    (eid x : String) (h : hasVotedB s eid x = true) :
    hasVotedB (connectWallet s a adm).2 eid x = true := by
  cases h0 : alGet s.voters a with
  | some v =>
      rw [connectWallet_found s a adm (by simp [h0])]
      exact h
  | none =>
      rw [connectWallet_fresh s a adm h0]
      show voterHasB (alSet s.voters a ⟨a, true, []⟩) eid x = true
      by_cases hx : a = x
      · subst hx
        unfold hasVotedB voterHasB at h
        rw [h0] at h
        exact absurd h (by simp)
      · unfold voterHasB
        rw [alGet_alSet_ne _ _ _ _ hx]
        exact h

theorem inv8_connect (s : State) (addr : String) (adm : Bool) (h : Inv8 s) :
    Inv8 (connectWallet s addr adm).2 := by
  obtain ⟨hWF, hND, hAR⟩ := h
  refine ⟨?_, ?_, ?_⟩
  · intro eid vs hvs v hv
    rw [connectWallet_votes] at hvs
    obtain ⟨h1, h2⟩ := hWF eid vs hvs v hv
    exact ⟨h1, voterHasB_connect_mono s addr adm _ _ h2⟩
  · intro eid vs hvs
    rw [connectWallet_votes] at hvs
    exact hND eid vs hvs
  · intro a ha
    cases h0 : alGet s.voters addr with
    | some v =>
        rw [connectWallet_found s addr adm (by simp [h0])] at ha ⊢
        have ha' : (some addr : Option String) = some a := ha
        injection ha' with ha1
        subst ha1
        show (alGet s.voters addr).isSome = true
        rw [h0]
        rfl
    | none =>
        rw [connectWallet_fresh s addr adm h0] at ha ⊢
        have ha' : (some addr : Option String) = some a := ha
        injection ha' with ha1
        subst ha1
        show (alGet (alSet s.voters addr ⟨addr, true, []⟩) addr).isSome = true
        rw [alGet_alSet_self]
        rfl

theorem inv8_create (s : State) (t d : String) (st et now : Nat)
    (h : Inv8 s) : Inv8 (createElection s t d st et now).2 := by
  obtain ⟨hWF, hND, hAR⟩ := h
  by_cases hAdm : s.isAdmin
  · have hst : (createElection s t d st et now).2 =
        { s with
          elections := alSet s.elections ("election-" ++ toString now)
            { id := "election-" ++ toString now, title := t,
              description := d, startTime := st, endTime := et,
              isActive := decide (st ≤ now) && decide (now ≤ et),
              candidates := [], totalVotes := 0 },
          votes := alSet s.votes ("election-" ++ toString now) [] } := by
      simp [createElection, hAdm]
    rw [hst]
    refine ⟨?_, ?_, ?_⟩
    · intro eid vs hvs v hv
      have hvs' : alGet (alSet s.votes ("election-" ++ toString now) [])
          eid = some vs := hvs
      rw [alGet_alSet] at hvs'
      by_cases hk : "election-" ++ toString now = eid
      · rw [if_pos hk] at hvs'
        injection hvs' with h1
        subst h1
        exact absurd hv (List.not_mem_nil v)
      · rw [if_neg hk] at hvs'
        exact hWF eid vs hvs' v hv
    · intro eid vs hvs
      have hvs' : alGet (alSet s.votes ("election-" ++ toString now) [])
          eid = some vs := hvs
      rw [alGet_alSet] at hvs'
      by_cases hk : "election-" ++ toString now = eid
      · rw [if_pos hk] at hvs'
        injection hvs' with h1
        subst h1
        exact List.Pairwise.nil
      · rw [if_neg hk] at hvs'
        exact hND eid vs hvs'
    · intro a ha
      exact hAR a ha
  · have hst : (createElection s t d st et now).2 = s := by
      rw [Bool.not_eq_true] at hAdm
      simp [createElection, hAdm]
    rw [hst]
    exact ⟨hWF, hND, hAR⟩

theorem inv8_addCand (s : State) (eid0 n d : String) (now : Nat)
    (h : Inv8 s) : Inv8 (addCandidate s eid0 n d now).2 := by
  obtain ⟨hWF, hND, hAR⟩ := h
  obtain ⟨E, hst⟩ : ∃ E, (addCandidate s eid0 n d now).2 =
      { s with elections := E } := by
    by_cases hAdm : s.isAdmin
    · cases hE0 : alGet s.elections eid0 with
      | none =>
          refine ⟨s.elections, ?_⟩
          have h2 : (addCandidate s eid0 n d now).2 = s := by
            simp [addCandidate, hAdm, hE0]
          rw [h2]
      | some e0 =>
          refine ⟨alSet s.elections eid0
            { e0 with candidates := e0.candidates ++
                [{ id := "candidate-" ++ toString now, name := n,
                   description := d, voteCount := 0, imageUrl := none }] },
            ?_⟩
          simp [addCandidate, hAdm, hE0]
    · rw [Bool.not_eq_true] at hAdm
      refine ⟨s.elections, ?_⟩
      have h2 : (addCandidate s eid0 n d now).2 = s := by
        simp [addCandidate, hAdm]
      rw [h2]
  rw [hst]
  exact ⟨fun eid vs hvs v hv => hWF eid vs hvs v hv,
    fun eid vs hvs => hND eid vs hvs, fun a ha => hAR a ha⟩

theorem inv8_castVote (s : State) (eid0 cid : String) (now : Nat)
    (tx : String) (h : Inv8 s) : Inv8 (castVote s eid0 cid now tx).2 := by
  obtain ⟨hWF, hND, hAR⟩ := h
  rcases castVote_spec s eid0 cid now tx with hs |
    ⟨addr, e0, c0, hA, hE0, hAct, hHV, hC, hOk, hSt⟩
  · rw [hs]; exact ⟨hWF, hND, hAR⟩
  · have hreg : (alGet s.voters addr).isSome = true := hAR addr hA
    cases hv0 : alGet s.voters addr with
    | none => rw [hv0] at hreg; exact absurd hreg (by simp)
    | some w =>
        rw [hSt]
        simp only [hv0]
        refine ⟨?_, ?_, ?_⟩
        · intro eid vs hvs v hv
          have hvs' : alGet (alSet s.votes eid0
              ((alGet s.votes eid0).getD [] ++
                [⟨eid0, cid, addr, now, tx⟩])) eid = some vs := hvs
          rw [alGet_alSet] at hvs'
          by_cases hk : eid0 = eid
          · rw [if_pos hk] at hvs'
            injection hvs' with h1
            subst h1
            rcases List.mem_append.mp hv with hvold | hvnew
            · cases hvv : alGet s.votes eid0 with
              | none => rw [hvv] at hvold; simp at hvold
              | some ol =>
                  rw [hvv] at hvold
                  have hvold' : v ∈ ol := hvold
                  obtain ⟨h1, h2⟩ := hWF eid0 ol hvv v hvold'
                  refine ⟨h1.trans hk, ?_⟩
                  show voterHasB (alSet s.voters addr (markVoted w eid0))
                    v.electionId v.voterAddress = true
                  exact voterHasB_mark_mono s.voters addr eid0 w hv0 _ _ h2
            · have hveq : v = ⟨eid0, cid, addr, now, tx⟩ := by
                simpa using hvnew
              subst hveq
              refine ⟨hk, ?_⟩
              show voterHasB (alSet s.voters addr (markVoted w eid0))
                eid0 addr = true
              exact voterHasB_mark_self s.voters addr eid0 w
          · rw [if_neg hk] at hvs'
            obtain ⟨h1, h2⟩ := hWF eid vs hvs' v hv
            refine ⟨h1, ?_⟩
            show voterHasB (alSet s.voters addr (markVoted w eid0))
              v.electionId v.voterAddress = true
            exact voterHasB_mark_mono s.voters addr eid0 w hv0 _ _ h2
        · intro eid vs hvs
          have hvs' : alGet (alSet s.votes eid0
              ((alGet s.votes eid0).getD [] ++
                [⟨eid0, cid, addr, now, tx⟩])) eid = some vs := hvs
          rw [alGet_alSet] at hvs'
          by_cases hk : eid0 = eid
          · rw [if_pos hk] at hvs'
            injection hvs' with h1
            subst h1
            rw [List.pairwise_append]
            refine ⟨?_, ?_, ?_⟩
            · cases hvv : alGet s.votes eid0 with
              | none => simp [hvv]
              | some ol => exact hND eid0 ol hvv
            · simp
            · intro x hx y hy
              have hy' : y = ⟨eid0, cid, addr, now, tx⟩ := by simpa using hy
              subst hy'
              cases hvv : alGet s.votes eid0 with
              | none => rw [hvv] at hx; simp at hx
              | some ol =>
                  rw [hvv] at hx
                  have hx' : x ∈ ol := hx
                  obtain ⟨h1, h2⟩ := hWF eid0 ol hvv x hx'
                  intro hEqAddr
                  rw [h1] at h2
                  have hEq2 : x.voterAddress = addr := hEqAddr
                  rw [hEq2] at h2
                  rw [hHV] at h2
                  exact Bool.noConfusion h2
          · rw [if_neg hk] at hvs'
            exact hND eid vs hvs'
        · intro a ha
          have ha' : s.currentAccount = some a := ha
          rw [hA] at ha'
          injection ha' with ha1
          subst ha1
          show (alGet (alSet s.voters addr (markVoted w eid0)) addr).isSome
            = true
          rw [alGet_alSet_self]
          rfl

theorem inv8_applyOp (s : State) (op : Op) (h : Inv8 s) :
    Inv8 (applyOp s op) := by
  cases op with
  | connect addr adm => exact inv8_connect s addr adm h
  | disconnect =>
      obtain ⟨hWF, hND, hAR⟩ := h
      refine ⟨fun eid vs hvs v hv => hWF eid vs hvs v hv,
        fun eid vs hvs => hND eid vs hvs, fun a ha => ?_⟩
      exact Option.noConfusion (show (none : Option String) = some a from ha)
  | create t d st et now => exact inv8_create s t d st et now h
  | addCand eid0 n d now => exact inv8_addCand s eid0 n d now h
  | vote eid0 cid now tx => exact inv8_castVote s eid0 cid now tx h
  | listAll => exact h
  | getOne eid0 => exact h
  | results eid0 => exact h
  | txStatus r => exact h

theorem inv8_foldl (ops : List Op) :
    ∀ s, Inv8 s → Inv8 (ops.foldl applyOp s) := by
  induction ops with
  | nil => intro s h; exact h
  | cons op rest ih => intro s h; exact ih _ (inv8_applyOp s op h)

theorem inv8_init (t0 : Nat) : Inv8 (initState t0) := by
  refine ⟨?_, ?_, ?_⟩
  · intro eid vs hvs v hv
    simp only [initState] at hvs
    by_cases hk : "election-1" = eid
    · simp only [alGet, hk, if_true] at hvs
      injection hvs with h1
      subst h1
      exact absurd hv (List.not_mem_nil v)
    · simp only [alGet, hk, if_false] at hvs
      exact Option.noConfusion hvs
  · intro eid vs hvs
    simp only [initState] at hvs
    by_cases hk : "election-1" = eid
    · simp only [alGet, hk, if_true] at hvs
      injection hvs with h1
      subst h1
      exact List.Pairwise.nil
    · simp only [alGet, hk, if_false] at hvs
      exact Option.noConfusion hvs
  · intro a ha
    exact Option.noConfusion (show (none : Option String) = some a from ha)

/-- C8: in every reachable state, every vote in every election's log has a
voter record whose `hasVoted` maps the vote's election to `true`, and no
election's log holds two votes by the same voter address. -/
theorem c8_every_vote_flagged_and_unique (t0 : Nat) (ops : List Op)
    (eid : String) (vs : List Vote)
    (h : alGet (run t0 ops).votes eid = some vs) :
    (∀ v ∈ vs, ∃ w, alGet (run t0 ops).voters v.voterAddress = some w ∧
        memB v.electionId w.votedElections = true)
    ∧ List.Pairwise (fun v w : Vote => v.voterAddress ≠ w.voterAddress) vs := by
  obtain ⟨hWF, hND, _⟩ := inv8_foldl ops (initState t0) (inv8_init t0)
  refine ⟨?_, hND eid vs h⟩
  intro v hv
  obtain ⟨_, h2⟩ := hWF eid vs h v hv
  unfold hasVotedB voterHasB at h2
  cases hv0 : alGet (List.foldl applyOp (initState t0) ops).voters
      v.voterAddress with
  | none => rw [hv0] at h2; exact absurd h2 (by simp)
  | some w =>
      rw [hv0] at h2
      exact ⟨w, hv0, h2⟩

/-- C8 witness: after 0xaa votes in the sample election, the logged vote's
voter record carries the election flag. -/
theorem c8_witness :
    ∃ w, alGet (run 0 [Op.connect "0xaa" false,
        Op.vote "election-1" "candidate-1" 7 "0xt"]).voters "0xaa" = some w ∧
      memB "election-1" w.votedElections = true :=
  (c8_every_vote_flagged_and_unique 0
      [Op.connect "0xaa" false, Op.vote "election-1" "candidate-1" 7 "0xt"]
      "election-1"
      [{ electionId := "election-1", candidateId := "candidate-1",
         voterAddress := "0xaa", timestamp := 7, txHash := "0xt" }]
      (by decide)).1
    { electionId := "election-1", candidateId := "candidate-1",
      voterAddress := "0xaa", timestamp := 7, txHash := "0xt" }
    (by decide)

end VoteVault
